import Mathlib

/-!
Verification development for the `astrbot_plugin_message_stats` plugin.

The Python sources are shallowly embedded as executable Lean definitions:

* `src/utils/models.py` — `MessageDate`, `UserData` and their
  (de)serialization (`to_dict` / `from_dict`, `str(MessageDate)`).
* `src/main.py` — the windowed counting functions
  (`_count_messages_in_period_fast`, `_count_messages_in_period_unordered`)
  and the text-message percentage computation (`_generate_text_message`).
* `src/utils/data_stores.py` / `src/utils/data_manager.py` — the group
  JSON store (`load_group_data`, `save_group_data`, `delete_group_data`,
  `clear_group_data`, `_save_json_safely`), modelled as pure functions over
  an explicit file-system state plus an explicit trace of file operations.
* `src/utils/timer_manager.py` — `_calculate_next_push_time`, with the
  external `croniter` library abstracted as an input
  (`Option PyDateTime`: the outcome of the cron-interpretation attempt).

Python `int` values are modelled as `Int` (`Nat` where the source only
ever produces non-negative values, e.g. calendar-date components, which
every constructor in the source yields as non-negative decimal parses or
fields of valid `datetime.date` objects).  Python exceptions that a claim
depends on are modelled with `Except`; caught exceptions follow the
source's `try/except` structure.
-/

/-- `MessageDate` from `src/utils/models.py`: a calendar date given by
year, month and day.  Components are natural numbers: every constructor
in the source (`from_date`, the `from_dict` parser) produces non-negative
components. -/
structure MessageDate where
  year : Nat
  month : Nat
  day : Nat
deriving DecidableEq, Repr

/-- Comparison key: Python compares `datetime.date` objects (and tuples)
lexicographically by `(year, month, day)`; `MessageDate.__lt__` in the
source compares exactly these tuples. -/
def MessageDate.key (d : MessageDate) : Nat ×ₗ (Nat ×ₗ Nat) :=
  toLex (d.year, toLex (d.month, d.day))

theorem MessageDate.key_injective : Function.Injective MessageDate.key := by
  intro a b h
  cases a; cases b
  simp only [MessageDate.key, toLex, Equiv.refl_apply, Prod.mk.injEq] at h
  simp_all

instance : LinearOrder MessageDate :=
  LinearOrder.lift' MessageDate.key MessageDate.key_injective

/-- Executable `<` on dates, mirroring Python's lexicographic tuple
comparison in `MessageDate.__lt__`. -/
def MessageDate.ltb (a b : MessageDate) : Bool :=
  a.year < b.year || (a.year == b.year &&
    (a.month < b.month || (a.month == b.month && a.day < b.day)))

/-- Executable `≤` on dates (`not (b < a)` for this total order),
mirroring Python's `<=` on `datetime.date`. -/
def MessageDate.leb (a b : MessageDate) : Bool := !(MessageDate.ltb b a)

theorem MessageDate.ltb_iff (a b : MessageDate) : a.ltb b = true ↔ a < b := by
  show _ ↔ a.key < b.key
  cases a; cases b
  simp only [MessageDate.ltb, MessageDate.key]
  rw [Prod.Lex.lt_iff, Prod.Lex.lt_iff]
  simp [Bool.or_eq_true, Bool.and_eq_true, beq_iff_eq, decide_eq_true_eq]

theorem MessageDate.leb_iff (a b : MessageDate) : a.leb b = true ↔ a ≤ b := by
  rw [MessageDate.leb, Bool.not_eq_true', ← Bool.not_eq_true, MessageDate.ltb_iff]
  exact not_lt

/-! ### Decimal printing and parsing

`str(MessageDate)` in the source is `f"{year}-{month:02d}-{day:02d}"`;
`UserData.from_dict` parses it back with
`year, month, day = map(int, hist_str.split('-'))`.  The following
definitions model decimal formatting (`str`/`{:02d}`), `str.split('-')`
and `int` on the pieces (restricted to unsigned decimal digit strings;
the split pieces the source ever feeds to `int` contain no sign, and the
whitespace/underscore tolerance of Python's `int` is irrelevant to every
claim below). -/

/-- Decimal digits of `n`, least significant first (empty for `0`). -/
def natDigitsRev : Nat → List Nat
  | 0 => []
  | n + 1 => ((n + 1) % 10) :: natDigitsRev ((n + 1) / 10)
decreasing_by exact Nat.div_lt_self (Nat.succ_pos n) (by omega)

/-- The character for one decimal digit. -/
def digitChar10 (d : Nat) : Char := Char.ofNat (48 + d)

/-- Numeric value of a decimal digit character. -/
def charDigit10 (c : Char) : Nat := c.toNat - 48

/-- Decimal representation of `n` as characters, as Python's `str(n)`
for non-negative `n`. -/
def natChars (n : Nat) : List Char :=
  if n = 0 then ['0'] else ((natDigitsRev n).reverse.map digitChar10)

/-- Python's `"{:02d}".format(n)` for non-negative `n`: pad to width two
with a leading `'0'`. -/
def pad2 (n : Nat) : List Char :=
  if n < 10 then '0' :: natChars n else natChars n

/-- Value of a digit-character string read left to right (leading zeros
allowed), as Python's `int` computes it. -/
def digitsToNat (l : List Char) : Nat :=
  l.foldl (fun a c => a * 10 + charDigit10 c) 0

/-- Model of Python `int(piece)` on a `split('-')` piece: succeeds
exactly on non-empty all-digit strings. -/
def parseNatDigits (l : List Char) : Option Nat :=
  if l ≠ [] ∧ l.all Char.isDigit then some (digitsToNat l) else none

/-- Python's `str.split` on one separator character. -/
def splitOnChar (sep : Char) : List Char → List (List Char)
  | [] => [[]]
  | c :: rest =>
    if c = sep then [] :: splitOnChar sep rest
    else
      match splitOnChar sep rest with
      | [] => [[c]]
      | p :: ps => (c :: p) :: ps

theorem splitOnChar_ne_nil (sep : Char) (l : List Char) : splitOnChar sep l ≠ [] := by
  induction l with
  | nil => simp [splitOnChar]
  | cons c rest ih =>
    simp only [splitOnChar]
    split
    · simp
    · cases h : splitOnChar sep rest <;> simp

theorem splitOnChar_no_sep {sep : Char} {l : List Char}
    (h : ∀ c ∈ l, c ≠ sep) : splitOnChar sep l = [l] := by
  induction l with
  | nil => rfl
  | cons c rest ih =>
    have hc : c ≠ sep := h c (List.mem_cons_self c rest)
    simp only [splitOnChar, if_neg hc]
    rw [ih (fun x hx => h x (List.mem_cons_of_mem c hx))]

theorem splitOnChar_append {sep : Char} {a : List Char}
    (h : ∀ c ∈ a, c ≠ sep) (b : List Char) :
    splitOnChar sep (a ++ sep :: b) = a :: splitOnChar sep b := by
  induction a with
  | nil => simp [splitOnChar]
  | cons c rest ih =>
    have hc : c ≠ sep := h c (List.mem_cons_self c rest)
    simp only [List.cons_append, splitOnChar, if_neg hc]
    have := ih (fun x hx => h x (List.mem_cons_of_mem c hx))
    simp only [List.append_eq] at this ⊢
    rw [this]

theorem natDigitsRev_lt_ten (n : Nat) : ∀ d ∈ natDigitsRev n, d < 10 := by
  induction n using Nat.strong_induction_on with
  | _ n ih =>
    match n with
    | 0 => intro d hd; simp [natDigitsRev] at hd
    | m + 1 =>
      intro d hd
      rw [natDigitsRev] at hd
      rcases List.mem_cons.mp hd with h | h
      · subst h; omega
      · exact ih ((m + 1) / 10) (Nat.div_lt_self (Nat.succ_pos m) (by omega)) d h

theorem foldr_digits_val (n : Nat) :
    (natDigitsRev n).foldr (fun d acc => acc * 10 + d) 0 = n := by
  induction n using Nat.strong_induction_on with
  | _ n ih =>
    match n with
    | 0 => rw [natDigitsRev]; rfl
    | m + 1 =>
      rw [natDigitsRev, List.foldr_cons,
        ih ((m + 1) / 10) (Nat.div_lt_self (Nat.succ_pos m) (by omega))]
      omega

theorem charDigit10_digitChar10 : ∀ d < 10, charDigit10 (digitChar10 d) = d := by decide

theorem digitChar10_isDigit : ∀ d < 10, (digitChar10 d).isDigit = true := by decide

theorem digitChar10_ne_dash : ∀ d < 10, digitChar10 d ≠ '-' := by decide

theorem natChars_ne_nil (n : Nat) : natChars n ≠ [] := by
  unfold natChars
  split
  · simp
  · next h =>
    intro hc
    rw [List.map_eq_nil_iff, List.reverse_eq_nil_iff] at hc
    have := foldr_digits_val n
    rw [hc] at this
    simp at this
    omega

theorem natChars_all_digit (n : Nat) : (natChars n).all Char.isDigit = true := by
  unfold natChars
  split
  · decide
  · rw [List.all_eq_true]
    intro c hc
    rw [List.mem_map] at hc
    obtain ⟨d, hd, rfl⟩ := hc
    rw [List.mem_reverse] at hd
    exact digitChar10_isDigit d (natDigitsRev_lt_ten n d hd)

theorem natChars_no_dash (n : Nat) : ∀ c ∈ natChars n, c ≠ '-' := by
  unfold natChars
  split
  · decide
  · intro c hc
    rw [List.mem_map] at hc
    obtain ⟨d, hd, rfl⟩ := hc
    rw [List.mem_reverse] at hd
    exact digitChar10_ne_dash d (natDigitsRev_lt_ten n d hd)

theorem digitsToNat_natChars (n : Nat) : digitsToNat (natChars n) = n := by
  unfold natChars digitsToNat
  split
  · next h => subst h; decide
  · rw [List.foldl_map]
    rw [List.foldl_ext (g := fun a d => a * 10 + d)]
    · rw [List.foldl_reverse]
      exact foldr_digits_val n
    · intro a d hd
      rw [List.mem_reverse] at hd
      rw [charDigit10_digitChar10 d (natDigitsRev_lt_ten n d hd)]

theorem parseNatDigits_natChars (n : Nat) : parseNatDigits (natChars n) = some n := by
  rw [parseNatDigits, if_pos ⟨natChars_ne_nil n, natChars_all_digit n⟩,
    digitsToNat_natChars]

theorem pad2_no_dash (n : Nat) : ∀ c ∈ pad2 n, c ≠ '-' := by
  unfold pad2
  split
  · intro c hc
    rcases List.mem_cons.mp hc with h | h
    · subst h; decide
    · exact natChars_no_dash n c h
  · exact natChars_no_dash n

theorem parseNatDigits_pad2 (n : Nat) : parseNatDigits (pad2 n) = some n := by
  unfold pad2
  split
  · have hall : ('0' :: natChars n).all Char.isDigit = true := by
      rw [List.all_cons, natChars_all_digit]
      decide
    rw [parseNatDigits, if_pos ⟨by simp, hall⟩]
    have : digitsToNat ('0' :: natChars n) = digitsToNat (natChars n) := by
      rw [digitsToNat, digitsToNat, List.foldl_cons]
      have h0 : 0 * 10 + charDigit10 '0' = 0 := by decide
      rw [h0]
    rw [this, digitsToNat_natChars]
  · exact parseNatDigits_natChars n

/-- `str(MessageDate)` from `src/utils/models.py`:
`f"{self.year}-{self.month:02d}-{self.day:02d}"`. -/
def MessageDate.str (d : MessageDate) : String :=
  ⟨natChars d.year ++ '-' :: (pad2 d.month ++ '-' :: pad2 d.day)⟩

/-- The history-entry parse step of `UserData.from_dict`:
`year, month, day = map(int, hist_str.split('-'))` wrapped in a
`try/except (ValueError, IndexError)`; `none` models the caught failure
(wrong number of pieces, or a piece `int` rejects). -/
def parseHistStr (s : String) : Option MessageDate :=
  match splitOnChar '-' s.data with
  | [a, b, c] =>
    match parseNatDigits a, parseNatDigits b, parseNatDigits c with
    | some y, some m, some d => some ⟨y, m, d⟩
    | _, _, _ => none
  | _ => none

/-- Each date's string form parses back to the same date: the
`str`/`split('-')`+`int` round trip of the source is lossless. -/
theorem parseHistStr_str (d : MessageDate) : parseHistStr d.str = some d := by
  rw [parseHistStr, MessageDate.str]
  show (match splitOnChar '-' (natChars d.year ++ '-' :: (pad2 d.month ++ '-' :: pad2 d.day)) with
    | [a, b, c] =>
      match parseNatDigits a, parseNatDigits b, parseNatDigits c with
      | some y, some m, some dd => some (⟨y, m, dd⟩ : MessageDate)
      | _, _, _ => none
    | _ => none) = some d
  rw [splitOnChar_append (natChars_no_dash d.year),
    splitOnChar_append (pad2_no_dash d.month),
    splitOnChar_no_sep (pad2_no_dash d.day)]
  simp only [parseNatDigits_natChars, parseNatDigits_pad2]

/-! ### UserData (`src/utils/models.py`) -/

/-- `UserData` from `src/utils/models.py`.  Field names follow the
source; `message_count` is a Python `int` (`Int`), `history` a list of
`MessageDate`, the remaining fields `Optional` values. -/
structure UserData where
  user_id : String
  nickname : String
  message_count : Int := 0
  history : List MessageDate := []
  last_date : Option String := none
  first_message_time : Option Int := none
  last_message_time : Option Int := none
deriving DecidableEq, Repr

/-- `UserData.add_message`: increment the count, append the date to the
history, refresh `last_date` with `str(message_date)`. -/
def UserData.add_message (u : UserData) (message_date : MessageDate) : UserData :=
  { u with
    message_count := u.message_count + 1
    history := u.history ++ [message_date]
    last_date := some message_date.str }

/-- `UserData.get_message_count_in_period`: count history entries with
`start_date <= hist_date.to_date() <= end_date` by a full scan. -/
def UserData.get_message_count_in_period (u : UserData)
    (start_date end_date : MessageDate) : Nat :=
  u.history.countP (fun d => start_date.leb d && d.leb end_date)

/-- One element yielded by iterating the `history` value in
`UserData.from_dict`: either a Python `str` (so `.split('-')` is
available) or any non-string value, on which `.split` raises an
`AttributeError`. -/
inductive HistItem where
  | str (s : String)
  | nonStr
deriving DecidableEq

/-- The `history` value of a user dictionary as `from_dict` sees it:
either iteration raises `TypeError` (caught and ignored), or it yields a
list of items. -/
inductive HistVal where
  | notIterable
  | items (l : List HistItem)
deriving DecidableEq

/-- Python exceptions that can escape `UserData.from_dict`: `KeyError`
for a missing `user_id`/`nickname` key, and `AttributeError` from
`hist_str.split` on a non-string history element (neither is caught by
the `except (ValueError, IndexError)` / `except TypeError` handlers in
the source). -/
inductive PyErr where
  | keyError
  | attributeError
deriving DecidableEq

/-- A user dictionary (one JSON object in the group file) as
`UserData.from_dict` consumes it.  `user_id?`/`nickname?` model key
presence (`data["user_id"]` raises `KeyError` when `none`);
`message_count`, `last_date` and the two timestamps model the results of
the corresponding `data.get(...)` calls (default `0` resp. `None`);
`history?` is `none` when the `"history"` key is absent. -/
structure UserDict where
  user_id? : Option String
  nickname? : Option String
  message_count : Int
  last_date : Option String
  first_message_time : Option Int
  last_message_time : Option Int
  history? : Option HistVal
deriving DecidableEq

/-- `UserData.to_dict` from `src/utils/models.py`: every key is written;
`history` becomes `[str(h) for h in self.history]` (all strings). -/
def UserData.to_dict (u : UserData) : UserDict where
  user_id? := some u.user_id
  nickname? := some u.nickname
  message_count := u.message_count
  last_date := u.last_date
  first_message_time := u.first_message_time
  last_message_time := u.last_message_time
  history? := some (.items (u.history.map (fun h => .str h.str)))

/-- The history-rebuilding loop of `UserData.from_dict`: strings whose
parse fails (`ValueError`/`IndexError`) are skipped, parsed dates are
appended in order, and a non-string element raises `AttributeError`
(`.split` on a non-string), which no handler in the source catches. -/
def rebuildHistoryLoop : List HistItem → List MessageDate → Except PyErr (List MessageDate)
  | [], acc => .ok acc
  | .str s :: rest, acc =>
    match parseHistStr s with
    | some d => rebuildHistoryLoop rest (acc ++ [d])
    | none => rebuildHistoryLoop rest acc
  | .nonStr :: _, _ => .error .attributeError

/-- The `history` handling of `UserData.from_dict`: an absent key adds
nothing; a non-iterable value raises `TypeError`, which the
`except TypeError: pass` handler ignores; an iterable value runs the
per-item loop. -/
def rebuildHistory : Option HistVal → Except PyErr (List MessageDate)
  | none => .ok []
  | some .notIterable => .ok []
  | some (.items l) => rebuildHistoryLoop l []

/-- `UserData.from_dict` from `src/utils/models.py`: `user_id` and
`nickname` are mandatory (`KeyError` when absent), the remaining scalar
fields are taken verbatim from the `data.get` results, and the history
is rebuilt by `rebuildHistory`. -/
def UserData.from_dict (data : UserDict) : Except PyErr UserData :=
  match data.user_id?, data.nickname? with
  | some uid, some nick =>
    match rebuildHistory data.history? with
    | .ok hist =>
      Except.ok
        { user_id := uid
          nickname := nick
          message_count := data.message_count
          last_date := data.last_date
          first_message_time := data.first_message_time
          last_message_time := data.last_message_time
          history := hist }
    | .error e => Except.error e
  | none, _ => Except.error PyErr.keyError
  | some _, none => Except.error PyErr.keyError

theorem rebuildHistoryLoop_strs (l : List MessageDate) (acc : List MessageDate) :
    rebuildHistoryLoop (l.map (fun h => .str h.str)) acc = .ok (acc ++ l) := by
  induction l generalizing acc with
  | nil => simp [rebuildHistoryLoop]
  | cons d rest ih =>
    rw [List.map_cons, rebuildHistoryLoop]
    rw [parseHistStr_str]
    simpa using ih (acc ++ [d])

/-- Serialization round trip at the record level: `from_dict (to_dict u)`
reconstructs `u` exactly. -/
theorem from_dict_to_dict (u : UserData) : UserData.from_dict u.to_dict = .ok u := by
  rw [UserData.from_dict]
  show (match rebuildHistory (some (.items (u.history.map (fun h => .str h.str)))) with
    | .ok hist =>
      Except.ok
        { user_id := u.user_id
          nickname := u.nickname
          message_count := u.message_count
          last_date := u.last_date
          first_message_time := u.first_message_time
          last_message_time := u.last_message_time
          history := hist }
    | .error e => Except.error e) = Except.ok u
  rw [rebuildHistory, rebuildHistoryLoop_strs u.history []]
  simp

/-! ### Windowed counting (`src/main.py`) -/

/-- `_count_messages_in_period_unordered` from `src/main.py`: plain full
scan counting entries with `start_date <= d <= end_date`. -/
def countMessagesInPeriodUnordered (history : List MessageDate)
    (start_date end_date : MessageDate) : Nat :=
  history.countP (fun d => start_date.leb d && d.leb end_date)

/-- The sortedness check of `_count_messages_in_period_fast`: one full
linear scan over every adjacent pair, `False` as soon as
`current_date > next_date`. -/
def isSortedAdjacent : List MessageDate → Bool
  | a :: b :: rest => !(b.ltb a) && isSortedAdjacent (b :: rest)
  | _ => true

/-- The early-stop loop of `_count_messages_in_period_fast` for a sorted
history: skip entries `< start_date`, break at the first entry
`> end_date` (returning the count so far), count the rest. -/
def earlyStopCount (start_date end_date : MessageDate) :
    Nat → List MessageDate → Nat
  | c, [] => c
  | c, d :: rest =>
    if d.ltb start_date then earlyStopCount start_date end_date c rest
    else if end_date.ltb d then c
    else earlyStopCount start_date end_date (c + 1) rest

/-- `_count_messages_in_period_fast` from `src/main.py`: empty history
gives `0`; otherwise decide sortedness by the full adjacent-pair scan,
then use the early-stop walk (sorted) or the unordered full scan. -/
def countMessagesInPeriodFast (history : List MessageDate)
    (start_date end_date : MessageDate) : Nat :=
  if history = [] then 0
  else if isSortedAdjacent history then earlyStopCount start_date end_date 0 history
  else countMessagesInPeriodUnordered history start_date end_date

theorem isSortedAdjacent_tail {a : MessageDate} {rest : List MessageDate}
    (h : isSortedAdjacent (a :: rest) = true) : isSortedAdjacent rest = true := by
  cases rest with
  | nil => rfl
  | cons b r =>
    rw [isSortedAdjacent, Bool.and_eq_true] at h
    exact h.2

theorem isSortedAdjacent_head_le {a : MessageDate} {rest : List MessageDate}
    (h : isSortedAdjacent (a :: rest) = true) : ∀ x ∈ rest, a ≤ x := by
  induction rest generalizing a with
  | nil => intro x hx; cases hx
  | cons b r ih =>
    rw [isSortedAdjacent, Bool.and_eq_true] at h
    have hab : a ≤ b := by
      have := h.1
      rw [Bool.not_eq_true', ← Bool.not_eq_true, MessageDate.ltb_iff] at this
      exact not_lt.mp this
    intro x hx
    rcases List.mem_cons.mp hx with rfl | hx
    · exact hab
    · exact le_trans hab (ih h.2 x hx)

theorem earlyStopCount_sorted (start_date end_date : MessageDate)
    (history : List MessageDate) (h : isSortedAdjacent history = true) :
    ∀ c, earlyStopCount start_date end_date c history =
      c + countMessagesInPeriodUnordered history start_date end_date := by
  induction history with
  | nil => intro c; simp [earlyStopCount, countMessagesInPeriodUnordered]
  | cons d rest ih =>
    intro c
    rw [earlyStopCount]
    rw [countMessagesInPeriodUnordered, List.countP_cons]
    by_cases h1 : d.ltb start_date = true
    · rw [if_pos h1]
      have hpred : (start_date.leb d && d.leb end_date) = false := by
        rw [MessageDate.ltb_iff] at h1
        have : start_date.leb d = false := by
          rw [← Bool.not_eq_true, MessageDate.leb_iff]
          exact not_le.mpr h1
        simp [this]
      rw [hpred, ih (isSortedAdjacent_tail h)]
      simp [countMessagesInPeriodUnordered]
    · rw [if_neg h1]
      by_cases h2 : end_date.ltb d = true
      · rw [if_pos h2]
        have hpred : (start_date.leb d && d.leb end_date) = false := by
          rw [MessageDate.ltb_iff] at h2
          have : d.leb end_date = false := by
            rw [← Bool.not_eq_true, MessageDate.leb_iff]
            exact not_le.mpr h2
          simp [this]
        rw [hpred]
        have hrest : rest.countP (fun x => start_date.leb x && x.leb end_date) = 0 := by
          rw [List.countP_eq_zero]
          intro x hx
          have hdx : d ≤ x := isSortedAdjacent_head_le h x hx
          rw [MessageDate.ltb_iff] at h2
          have : ¬ x ≤ end_date := fun hle => absurd (le_trans hdx hle) (not_le.mpr h2)
          have hxe : x.leb end_date = false := by
            rw [← Bool.not_eq_true, MessageDate.leb_iff]
            exact this
          simp [hxe]
        rw [hrest]
        simp
      · rw [if_neg h2]
        have hpred : (start_date.leb d && d.leb end_date) = true := by
          rw [Bool.not_eq_true] at h1 h2
          have hs : start_date ≤ d := by
            rw [← MessageDate.leb_iff, MessageDate.leb]
            simp [h1]
          have he : d ≤ end_date := by
            rw [← MessageDate.leb_iff, MessageDate.leb]
            simp [h2]
          rw [← MessageDate.leb_iff] at hs he
          simp [hs, he]
        rw [hpred, ih (isSortedAdjacent_tail h)]
        rw [countMessagesInPeriodUnordered]
        simp only [if_pos]
        omega

/-- The optimized count agrees with the plain unordered full scan on
every history and window. -/
theorem fast_eq_unordered (history : List MessageDate)
    (start_date end_date : MessageDate) :
    countMessagesInPeriodFast history start_date end_date =
      countMessagesInPeriodUnordered history start_date end_date := by
  rw [countMessagesInPeriodFast]
  by_cases hnil : history = []
  · rw [if_pos hnil, hnil]
    rfl
  · rw [if_neg hnil]
    by_cases hs : isSortedAdjacent history = true
    · rw [if_pos hs, earlyStopCount_sorted start_date end_date history hs 0]
      omega
    · rw [if_neg hs]

theorem countP_point (history : List MessageDate) (d : MessageDate) :
    countMessagesInPeriodUnordered history d d = history.count d := by
  rw [countMessagesInPeriodUnordered, List.count]
  apply List.countP_congr
  intro x _
  constructor
  · intro h
    rw [Bool.and_eq_true, MessageDate.leb_iff, MessageDate.leb_iff] at h
    have : x = d := le_antisymm h.2 h.1
    simp [this]
  · intro h
    rw [beq_iff_eq] at h
    subst h
    simp [Bool.and_eq_true, MessageDate.leb_iff]

/-! ### Group JSON store (`src/utils/data_stores.py`, `src/utils/data_manager.py`)

The file system is a map from file names to contents.  File contents are
either a parsed JSON document (`json.loads` succeeds) or raw bytes on
which `json.loads` raises `JSONDecodeError` (`corrupt`).  Directory
prefixes (`groups_dir`) are elided: a group's file is named
`"{group_id}.json"` as in `_get_group_file_path`. -/

/-- One element of the JSON `users` list as `load_group_data` iterates
it: a JSON object (dictionary) or any non-object value (on which
`from_dict`'s subscripting raises `TypeError`, caught and skipped). -/
inductive UEntry where
  | dict (u : UserDict)
  | nonDict
deriving DecidableEq

/-- A parsed group JSON document, as far as `load_group_data` inspects
it: a top-level list (used directly), a top-level object (`users` field,
defaulting to `[]`; the `group_id`/`last_updated` keys written by
`save_group_data` are never read back and are elided), or any other
value (logged and treated as empty). -/
inductive Json where
  | arr (entries : List UEntry)
  | obj (users? : Option (List UEntry))
  | other
deriving DecidableEq

/-- On-disk content of one file. -/
inductive FileContent where
  | json (v : Json)
  | corrupt (raw : String)
deriving DecidableEq

/-- A file system: file name to content. -/
def Fs : Type := String → Option FileContent

/-- `_get_group_file_path`: `groups_dir / f"{group_id}.json"`. -/
def groupFilePath (gid : String) : String := gid ++ ".json"

/-- File operations a store function issues, in source order. -/
inductive FsOp where
  | write (path : String) (content : FileContent)
  | rename (src dst : String)
  | remove (path : String)
deriving DecidableEq

/-- Effect of one file operation on the file system; `rename` moves the
source over the destination (`Path.replace`). -/
def applyOp (fs : Fs) : FsOp → Fs
  | .write p c => fun q => if q = p then some c else fs q
  | .rename src dst => fun q =>
    if q = dst then fs src else if q = src then none else fs q
  | .remove p => fun q => if q = p then none else fs q

/-- Effect of a sequence of file operations. -/
def applyOps (ops : List FsOp) (fs : Fs) : Fs := ops.foldl applyOp fs

/-- The per-user loop of `load_group_data`: `from_dict` inside
`except (ValueError, TypeError)` — a non-dictionary entry raises
`TypeError` (caught, skipped); a `KeyError`/`AttributeError` escaping
`from_dict` is caught by neither handler and escapes `load_group_data`. -/
def loadUsersLoop : List UEntry → List UserData → Except PyErr (List UserData)
  | [], acc => .ok acc
  | .nonDict :: rest, acc => loadUsersLoop rest acc
  | .dict d :: rest, acc =>
    match UserData.from_dict d with
    | .ok u => loadUsersLoop rest (acc ++ [u])
    | .error e => .error e

/-- `GroupDataStore.load_group_data`: missing file gives `[]`; a file
`json.loads` rejects is caught by the `except (IOError, JSONDecodeError)`
handler and gives `[]`; otherwise the document shape selects the user
list.  The function performs no writes, so the file system is returned
unchanged in every case. -/
def loadGroupData (fs : Fs) (gid : String) : Except PyErr (List UserData × Fs) :=
  match fs (groupFilePath gid) with
  | none => .ok ([], fs)
  | some (.corrupt _) => .ok ([], fs)
  | some (.json .other) => .ok ([], fs)
  | some (.json (.arr entries)) =>
    (loadUsersLoop entries []).map (fun us => (us, fs))
  | some (.json (.obj users?)) =>
    (loadUsersLoop (users?.getD []) []).map (fun us => (us, fs))

/-- The document `save_group_data` serializes: a JSON object whose
`users` field is `[user.to_dict() for user in users]`. -/
def groupDoc (users : List UserData) : Json :=
  Json.obj (some (users.map (fun u => UEntry.dict u.to_dict)))

/-- `GroupDataStore.save_group_data`: one direct `open(file_path, 'w')`
write of the serialized document to the target file — no temporary file,
no rename.  `writeOk` abstracts whether the write raised
`IOError/OSError`; the caught failure is reported as `False`. -/
def saveGroupData (gid : String) (users : List UserData) (writeOk : Bool) :
    List FsOp × Bool :=
  ([FsOp.write (groupFilePath gid) (FileContent.json (groupDoc users))], writeOk)

/-- `Path.with_suffix`: drop the last `.`-suffix of the name, if any,
then append the new suffix. -/
def withSuffix (p : String) (suffix : String) : String :=
  let stem :=
    if '.' ∈ p.data then ((p.data.reverse.dropWhile (fun c => c ≠ '.')).tail).reverse
    else p.data
  ⟨stem ++ suffix.data⟩

/-- `DataManager._save_json_safely`: write the serialized data to the
temporary sibling `file_path.with_suffix('.tmp')`, then atomically
`temp_file.replace(file_path)`.  (This function is defined in the source
but never invoked by the group save path.) -/
def saveJsonSafely (file_path : String) (data : Json) (writeOk : Bool) :
    List FsOp × Bool :=
  if writeOk then
    ([FsOp.write (withSuffix file_path ".tmp") (FileContent.json data),
      FsOp.rename (withSuffix file_path ".tmp") file_path], true)
  else
    ([FsOp.write (withSuffix file_path ".tmp") (FileContent.json data),
      FsOp.remove (withSuffix file_path ".tmp")], false)

/-- `GroupDataStore.delete_group_data`: remove the file and return
`True` if it exists; return `False` if it is absent. -/
def deleteGroupData (fs : Fs) (gid : String) : Fs × Bool :=
  if (fs (groupFilePath gid)).isSome then
    (applyOp fs (.remove (groupFilePath gid)), true)
  else (fs, false)

/-- `DataManager.clear_group_data`: remove the file if present, drop the
cache entry, and return `True` (also when the file was already absent);
only a raised `OSError` yields `False` (not modelled — the happy paths
carry the claim).  The cache is not part of the file-system state. -/
def clearGroupData (fs : Fs) (gid : String) : Fs × Bool :=
  if (fs (groupFilePath gid)).isSome then
    (applyOp fs (.remove (groupFilePath gid)), true)
  else (fs, true)

/-- The write pattern claimed for the save path: a single write to a
temporary sibling followed by an atomic rename onto the target. -/
def writesViaTempRename (ops : List FsOp) (target : String) : Prop :=
  ∃ tmp c, tmp ≠ target ∧ ops = [FsOp.write tmp c, FsOp.rename tmp target]

theorem loadUsersLoop_to_dict (l : List UserData) (acc : List UserData) :
    loadUsersLoop (l.map (fun u => UEntry.dict u.to_dict)) acc = .ok (acc ++ l) := by
  induction l generalizing acc with
  | nil => simp [loadUsersLoop]
  | cons u rest ih =>
    rw [List.map_cons, loadUsersLoop, from_dict_to_dict]
    simpa using ih (acc ++ [u])

/-- After a successful `save_group_data`, a fresh `load_group_data` of
the same group returns exactly the saved records. -/
theorem load_after_save (fs : Fs) (gid : String) (users : List UserData) :
    loadGroupData (applyOps (saveGroupData gid users true).1 fs) gid =
      .ok (users, applyOps (saveGroupData gid users true).1 fs) := by
  have hfile : applyOps (saveGroupData gid users true).1 fs (groupFilePath gid) =
      some (FileContent.json (groupDoc users)) := by
    rw [saveGroupData, applyOps, List.foldl_cons, List.foldl_nil, applyOp]
    simp
  rw [loadGroupData, hfile, groupDoc]
  show Except.map (fun us => (us, applyOps (saveGroupData gid users true).1 fs))
      (loadUsersLoop ((some (users.map (fun u => UEntry.dict u.to_dict))).getD []) [])
    = Except.ok (users, applyOps (saveGroupData gid users true).1 fs)
  rw [Option.getD_some, loadUsersLoop_to_dict users []]
  rfl

/-! ### Scheduler fire-time computation (`src/utils/timer_manager.py`) -/

/-- A naive `datetime` at the granularity `_calculate_next_push_time`
uses: an ordinal day plus the microseconds elapsed within that day
(`replace(hour=h, minute=m, second=0, microsecond=0)` sets the latter to
`(h*3600 + m*60)*10^6`; `timedelta(days=1)` increments the former). -/
structure PyDateTime where
  day : Int
  usec : Nat
deriving DecidableEq, Repr

/-- Comparison key: naive datetimes compare lexicographically by
(day, time-of-day). -/
def PyDateTime.key (t : PyDateTime) : Int ×ₗ Nat := toLex (t.day, t.usec)

theorem PyDateTime.key_inj : Function.Injective PyDateTime.key := by
  intro a b h
  cases a; cases b
  simp only [PyDateTime.key, toLex, Equiv.refl_apply, Prod.mk.injEq] at h
  simp_all

instance : LinearOrder PyDateTime :=
  LinearOrder.lift' PyDateTime.key PyDateTime.key_inj

theorem PyDateTime.lt_of_day_lt {a b : PyDateTime} (h : a.day < b.day) : a < b := by
  show a.key < b.key
  rw [PyDateTime.key, PyDateTime.key, Prod.Lex.lt_iff]
  exact Or.inl h

/-- Model of Python `int(piece)` on a `split(':')` piece: an optional
sign followed by decimal digits. -/
def pyParseInt (l : List Char) : Option Int :=
  match l with
  | '-' :: rest => (parseNatDigits rest).map (fun n => -(n : Int))
  | '+' :: rest => (parseNatDigits rest).map (fun n => (n : Int))
  | _ => (parseNatDigits l).map (fun n => (n : Int))

/-- The simple-format block of `_calculate_next_push_time`: require a
`':'`, split into exactly two `int` pieces, build
`now.replace(hour=hour, minute=minute, second=0, microsecond=0)`
(`ValueError` for out-of-range fields), and push to the next day when
`target_time <= now`.  `none` models a raised `ValueError`, which the
outer handler converts to the default time. -/
def nextPushSimple (push_time : String) (now : PyDateTime) : Option PyDateTime :=
  if ':' ∈ push_time.data then
    match splitOnChar ':' push_time.data with
    | [a, b] =>
      match pyParseInt a, pyParseInt b with
      | some hour, some minute =>
        if 0 ≤ hour ∧ hour ≤ 23 ∧ 0 ≤ minute ∧ minute ≤ 59 then
          let target : PyDateTime :=
            ⟨now.day, (hour.toNat * 3600 + minute.toNat * 60) * 1000000⟩
          some (if target ≤ now then ⟨target.day + 1, target.usec⟩ else target)
        else none
      | _, _ => none
    | _ => none
  else none

/-- The default returned by the outer exception handler of
`_calculate_next_push_time`: 09:00 on the following day. -/
def fallbackNineAm (now : PyDateTime) : PyDateTime :=
  ⟨now.day + 1, 9 * 3600 * 1000000⟩

/-- `TimerManager._calculate_next_push_time`.  `cronResult` abstracts
the external `croniter(push_time, now).get_next(datetime)` attempt:
`some t` when the spec parses as a cron expression (with `t` the
instant `croniter` returns), `none` when that attempt raises the
`ValueError`/`TypeError` the source catches before trying the simple
`"HH:MM"` interpretation. -/
def calcNextPushTime (cronResult : Option PyDateTime) (push_time : String)
    (now : PyDateTime) : PyDateTime :=
  match cronResult with
  | some t => t
  | none =>
    match nextPushSimple push_time now with
    | some t => t
    | none => fallbackNineAm now

/-! ### Rank text rendering (`src/main.py` `_generate_text_message`;
the `timer_manager.py` copy computes the identical percentage) -/

/-- The numeric content of `_generate_text_message`: the displayed rows
are the first `config.rand` entries, and each percentage is
`(user_messages / total_messages) * 100` when `total_messages > 0`, else
`0`, where `total_messages` sums over the whole input list (not just the
displayed slice).  Python float division is modelled exactly over `ℚ`. -/
def textMessageRows (users_with_values : List (UserData × Int)) (limit : Nat) :
    List (UserData × Int × ℚ) :=
  let total_messages : Int := (users_with_values.map (fun p => p.2)).sum
  (users_with_values.take limit).map (fun p =>
    (p.1, p.2, if total_messages > 0 then ((p.2 : ℚ) / (total_messages : ℚ)) * 100 else 0))

/-! ### Claims -/

/-- C3: for every history list and every closed date interval
`[start_date, end_date]`, the optimized windowed count
(`_count_messages_in_period_fast`: full adjacent-pair sortedness scan,
then either the early-stop walk or the full-scan fallback) returns
exactly the count of the plain unordered full scan
(`_count_messages_in_period_unordered`, and equally
`UserData.get_message_count_in_period`); in particular on `[d, d]` it
counts exactly the entries equal to `d`, sorted or not. -/
theorem c3_fast_count_matches_plain_scan :
    ∀ (history : List MessageDate) (start_date end_date dd : MessageDate) (u : UserData),
      countMessagesInPeriodFast history start_date end_date =
        countMessagesInPeriodUnordered history start_date end_date ∧
      countMessagesInPeriodFast u.history start_date end_date =
        u.get_message_count_in_period start_date end_date ∧
      countMessagesInPeriodFast history dd dd = history.count dd := by
  intro history start_date end_date dd u
  refine ⟨fast_eq_unordered history start_date end_date, ?_, ?_⟩
  · exact fast_eq_unordered u.history start_date end_date
  · rw [fast_eq_unordered history dd dd, countP_point history dd]

/-- C4: a `UserData` that satisfies `message_count == len(history)` still
satisfies it after any finite sequence of `add_message` calls; each
`add_message` adds exactly one to the count and appends exactly one
history entry. -/
theorem c4_add_message_preserves_invariant (u : UserData) (ds : List MessageDate)
    (h : u.message_count = u.history.length) :
    (∀ (v : UserData) (d : MessageDate),
      (v.add_message d).message_count = v.message_count + 1 ∧
      (v.add_message d).history = v.history ++ [d]) ∧
    (ds.foldl UserData.add_message u).message_count =
      ((ds.foldl UserData.add_message u).history).length := by
  refine ⟨fun v d => ⟨rfl, rfl⟩, ?_⟩
  induction ds generalizing u with
  | nil => exact h
  | cons d rest ih =>
    rw [List.foldl_cons]
    apply ih
    rw [UserData.add_message]
    simp only [List.length_append, List.length_singleton]
    rw [h]
    push_cast
    ring

/-- Witness for C4 at a concrete record and two concrete dates. -/
theorem c4_witness :
    (([⟨2024, 1, 15⟩, ⟨2024, 1, 16⟩] : List MessageDate).foldl UserData.add_message
        { user_id := "1", nickname := "n" }).message_count =
      (([⟨2024, 1, 15⟩, ⟨2024, 1, 16⟩] : List MessageDate).foldl UserData.add_message
        { user_id := "1", nickname := "n" }).history.length :=
  (c4_add_message_preserves_invariant { user_id := "1", nickname := "n" }
    [⟨2024, 1, 15⟩, ⟨2024, 1, 16⟩] (by decide)).2

/-- C5: saving a record list with `save_group_data` and then loading the
same group from disk returns a record list equal by value to the one
saved; every field survives the `to_dict`/`from_dict` serialization
(the disk read is the cache-bypassing `load_group_data` path that a
cache invalidation forces). -/
theorem c5_save_then_load_round_trip (fs : Fs) (gid : String) (users : List UserData) :
    (∀ u : UserData, UserData.from_dict u.to_dict = Except.ok u) ∧
    loadGroupData (applyOps (saveGroupData gid users true).1 fs) gid =
      Except.ok (users, applyOps (saveGroupData gid users true).1 fs) :=
  ⟨from_dict_to_dict, load_after_save fs gid users⟩

/-- C1 counterexample: `save_group_data` for a concrete group and record
list does not write to a temporary sibling and rename it over the
target — its operation sequence is a single direct write to the target
file. -/
theorem c1_counterexample :
    ¬ writesViaTempRename (saveGroupData "123" [] true).1 (groupFilePath "123") := by
  rintro ⟨tmp, c, hne, heq⟩
  simp [saveGroupData] at heq

/-- C1 (amended): `GroupDataStore.save_group_data` serializes the record
list and writes it directly to the target file — no temporary sibling,
no rename — reporting a failed write as `False`; the
temp-write-then-atomic-rename pattern exists only in
`DataManager._save_json_safely`, which the group save path never
invokes. -/
theorem c1_save_writes_directly (gid : String) (users : List UserData) (writeOk : Bool) :
    (saveGroupData gid users writeOk).1 =
      [FsOp.write (groupFilePath gid) (FileContent.json (groupDoc users))] ∧
    (saveGroupData gid users writeOk).2 = writeOk ∧
    ¬ writesViaTempRename (saveGroupData gid users writeOk).1 (groupFilePath gid) ∧
    ∀ (p : String) (data : Json), withSuffix p ".tmp" ≠ p →
      writesViaTempRename (saveJsonSafely p data true).1 p := by
  refine ⟨rfl, rfl, ?_, ?_⟩
  · rintro ⟨tmp, c, hne, heq⟩
    simp [saveGroupData] at heq
  · intro p data hne
    exact ⟨withSuffix p ".tmp", FileContent.json data, hne, rfl⟩

/-- Witness for C1 (amended) at concrete paths: the unused
`_save_json_safely` does follow the temp-write-then-rename pattern for a
group file path. -/
theorem c1_save_writes_directly_witness :
    withSuffix "123.json" ".tmp" ≠ "123.json" ∧
    writesViaTempRename (saveJsonSafely "123.json" (groupDoc []) true).1 "123.json" :=
  ⟨by decide, (c1_save_writes_directly "123" [] true).2.2.2 "123.json" (groupDoc [])
    (by decide)⟩

/-- A file system holding one group file whose bytes `json.loads`
rejects. -/
def corruptFs : Fs :=
  fun p => if p = "123.json" then some (FileContent.corrupt "not json") else none

/-- C2 counterexample: loading the concrete corrupt group file returns
an empty list but performs none of the claimed recovery — the file
system comes back unchanged, with no `.backup` sibling and the original
file not overwritten by an empty document. -/
theorem c2_counterexample :
    ¬ (∃ fsOut, loadGroupData corruptFs "123" = Except.ok ([], fsOut) ∧
        fsOut (withSuffix (groupFilePath "123") ".backup") =
          some (FileContent.corrupt "not json") ∧
        fsOut (groupFilePath "123") = some (FileContent.json (Json.arr []))) := by
  rintro ⟨fsOut, heq, hback, hover⟩
  have hfile : corruptFs (groupFilePath "123") =
      some (FileContent.corrupt "not json") := by decide
  rw [loadGroupData, hfile] at heq
  have hfs : corruptFs = fsOut := congrArg Prod.snd (Except.ok.inj heq)
  rw [← hfs] at hback
  have : corruptFs (withSuffix (groupFilePath "123") ".backup") = none := by decide
  rw [this] at hback
  cases hback

/-- C2 (amended): on a group file containing invalid JSON,
`load_group_data` catches the parse failure and returns an empty list
without raising, leaving the file system entirely unchanged — no repair
attempt, no `.backup` copy, no overwrite.  (The strip-trailing-commas
repair with backup quarantine exists only in the never-invoked
`DataManager._repair_corrupted_json` /
`GroupDataStore.repair_corrupted_json`.) -/
theorem c2_load_corrupt_returns_empty (fs : Fs) (gid : String) (raw : String)
    (h : fs (groupFilePath gid) = some (FileContent.corrupt raw)) :
    loadGroupData fs gid = Except.ok ([], fs) := by
  rw [loadGroupData, h]

/-- Witness for C2 (amended) at the concrete corrupt file. -/
theorem c2_load_corrupt_witness :
    loadGroupData corruptFs "123" = Except.ok ([], corruptFs) :=
  c2_load_corrupt_returns_empty corruptFs "123" "not json" (by decide)

/-- A file system holding one (empty) group file for group `77`. -/
def groupFs77 : Fs :=
  fun p => if p = "77.json" then some (FileContent.json (Json.arr [])) else none

/-- C8 counterexample: `GroupDataStore.delete_group_data` reports
failure (`False`) when the file is already absent — both on a file
system that never had the file, and on the second of two consecutive
deletes. -/
theorem c8_counterexample :
    (deleteGroupData (fun _ => none) "77").2 = false ∧
    (deleteGroupData (deleteGroupData groupFs77 "77").1 "77").2 = false := by
  constructor
  · decide
  · decide

/-- C8 (amended): `GroupDataStore.delete_group_data` removes the file
and reports success when it exists but reports `False` when the file is
already absent, while `DataManager.clear_group_data` — the delete
operation the plugin actually invokes — removes the file if present and
reports success even when it is absent, so clearing twice in a row both
succeed. -/
theorem c8_delete_semantics (fs : Fs) (gid : String) :
    ((fs (groupFilePath gid)).isSome = true →
      deleteGroupData fs gid = (applyOp fs (.remove (groupFilePath gid)), true)) ∧
    ((fs (groupFilePath gid)).isSome = false → deleteGroupData fs gid = (fs, false)) ∧
    (clearGroupData fs gid).2 = true ∧
    (clearGroupData fs gid).1 (groupFilePath gid) = none ∧
    (clearGroupData (clearGroupData fs gid).1 gid).2 = true := by
  refine ⟨?_, ?_, ?_, ?_, ?_⟩
  · intro h
    rw [deleteGroupData, if_pos h]
  · intro h
    rw [deleteGroupData, if_neg (by rw [h]; exact Bool.false_ne_true)]
  · rw [clearGroupData]
    split <;> rfl
  · rw [clearGroupData]
    by_cases h : (fs (groupFilePath gid)).isSome = true
    · rw [if_pos h, applyOp]
      simp
    · rw [if_neg h]
      exact Option.not_isSome_iff_eq_none.mp (by simpa using h)
  · rw [clearGroupData]
    split <;> rfl

/-- Witness for C8 (amended) at a concrete file system where the group
file exists. -/
theorem c8_delete_semantics_witness :
    (groupFs77 (groupFilePath "77")).isSome = true ∧
    deleteGroupData groupFs77 "77" =
      (applyOp groupFs77 (.remove (groupFilePath "77")), true) ∧
    (clearGroupData groupFs77 "77").2 = true :=
  ⟨by decide, (c8_delete_semantics groupFs77 "77").1 (by decide),
    (c8_delete_semantics groupFs77 "77").2.2.1⟩

/-- Whether a history element is a Python string. -/
def HistItem.isStr : HistItem → Bool
  | .str _ => true
  | .nonStr => false

/-- Whether every element the `history` value yields is a string (also
true when the value is absent or not iterable). -/
def histAllStrings : Option HistVal → Bool
  | some (.items l) => l.all HistItem.isStr
  | _ => true

/-- The date one history element contributes, if any. -/
def histParse : HistItem → Option MessageDate
  | .str s => parseHistStr s
  | .nonStr => none

theorem rebuildHistoryLoop_all_str (l : List HistItem)
    (h : l.all HistItem.isStr = true) (acc : List MessageDate) :
    rebuildHistoryLoop l acc = .ok (acc ++ l.filterMap histParse) := by
  induction l generalizing acc with
  | nil => simp [rebuildHistoryLoop]
  | cons it rest ih =>
    rw [List.all_cons, Bool.and_eq_true] at h
    cases it with
    | str s =>
      rw [rebuildHistoryLoop]
      cases hp : parseHistStr s with
      | some d =>
        have hfm : List.filterMap histParse (HistItem.str s :: rest) =
            d :: List.filterMap histParse rest := by
          simp [List.filterMap_cons, histParse, hp]
        rw [hfm]
        show rebuildHistoryLoop rest (acc ++ [d]) = _
        rw [ih h.2 (acc ++ [d])]
        simp
      | none =>
        have hfm : List.filterMap histParse (HistItem.str s :: rest) =
            List.filterMap histParse rest := by
          simp [List.filterMap_cons, histParse, hp]
        rw [hfm]
        show rebuildHistoryLoop rest acc = _
        rw [ih h.2 acc]
    | nonStr => simp [HistItem.isStr] at h

/-- C9 counterexample: a dictionary with both required keys whose
`history` list contains one non-string element makes `from_dict` raise
(an `AttributeError` from `.split` that no handler catches), refuting
totality as claimed. -/
theorem c9_counterexample :
    ({ user_id? := some "1", nickname? := some "n", message_count := 5,
       last_date := none, first_message_time := none, last_message_time := none,
       history? := some (.items [.nonStr]) } : UserDict).user_id? = some "1" ∧
    ({ user_id? := some "1", nickname? := some "n", message_count := 5,
       last_date := none, first_message_time := none, last_message_time := none,
       history? := some (.items [.nonStr]) } : UserDict).nickname? = some "n" ∧
    UserData.from_dict
      { user_id? := some "1", nickname? := some "n", message_count := 5,
        last_date := none, first_message_time := none, last_message_time := none,
        history? := some (.items [.nonStr]) } = Except.error PyErr.attributeError := by
  refine ⟨rfl, rfl, rfl⟩

/-- C9 (amended): `from_dict` is total on the history field as long as
every element the history value yields is a string — unparseable date
strings are skipped, a non-iterable history value is ignored — and
`message_count` (like the other scalar fields) is taken verbatim, so the
result may have `message_count ≠ len(history)`; but a non-string element
inside an iterable history raises an uncaught `AttributeError`. -/
theorem c9_from_dict_total_on_string_histories (data : UserDict) (uid nick : String)
    (h1 : data.user_id? = some uid) (h2 : data.nickname? = some nick)
    (h3 : histAllStrings data.history? = true) :
    ∃ u, UserData.from_dict data = Except.ok u ∧
      u.user_id = uid ∧ u.nickname = nick ∧
      u.message_count = data.message_count ∧
      u.last_date = data.last_date ∧
      u.first_message_time = data.first_message_time ∧
      u.last_message_time = data.last_message_time ∧
      (∀ l, data.history? = some (.items l) → u.history = l.filterMap histParse) := by
  have hh : ∃ hist, rebuildHistory data.history? = .ok hist ∧
      (∀ l, data.history? = some (.items l) → hist = l.filterMap histParse) := by
    cases hd : data.history? with
    | none =>
      refine ⟨[], rfl, ?_⟩
      intro l hl
      cases hl
    | some hv =>
      cases hv with
      | notIterable =>
        refine ⟨[], rfl, ?_⟩
        intro l hl
        simp at hl
      | items l =>
        have hall : l.all HistItem.isStr = true := by
          rw [hd] at h3
          simpa [histAllStrings] using h3
        refine ⟨l.filterMap histParse, ?_, ?_⟩
        · rw [rebuildHistory]
          simpa using rebuildHistoryLoop_all_str l hall []
        · intro lp hlp
          injection hlp with hx
          injection hx with hy
          rw [hy]
  obtain ⟨hist, hok, hchar⟩ := hh
  refine ⟨{ user_id := uid, nickname := nick, message_count := data.message_count,
            last_date := data.last_date, first_message_time := data.first_message_time,
            last_message_time := data.last_message_time, history := hist },
    ?_, rfl, rfl, rfl, rfl, rfl, rfl, hchar⟩
  show (match data.user_id?, data.nickname? with
    | some uid, some nick =>
      match rebuildHistory data.history? with
      | .ok hist =>
        Except.ok ({ user_id := uid
                     nickname := nick
                     message_count := data.message_count
                     last_date := data.last_date
                     first_message_time := data.first_message_time
                     last_message_time := data.last_message_time
                     history := hist } : UserData)
      | .error e => Except.error e
    | none, _ => Except.error PyErr.keyError
    | some _, none => Except.error PyErr.keyError) = _
  rw [h1, h2, hok]

/-- A concrete dictionary whose history mixes a parseable date string
and an unparseable one, with `message_count` fixed at `5`. -/
def mixedHistDict : UserDict where
  user_id? := some "1"
  nickname? := some "n"
  message_count := 5
  last_date := none
  first_message_time := none
  last_message_time := none
  history? := some (.items [.str "2024-01-15", .str "oops"])

/-- Witness for C9 (amended): on `mixedHistDict`, `from_dict` succeeds
and keeps `message_count = 5` even though only one history entry
parses. -/
theorem c9_from_dict_witness :
    histAllStrings mixedHistDict.history? = true ∧
    ∃ u, UserData.from_dict mixedHistDict = Except.ok u ∧
      u.user_id = "1" ∧ u.nickname = "n" ∧
      u.message_count = mixedHistDict.message_count ∧
      u.last_date = mixedHistDict.last_date ∧
      u.first_message_time = mixedHistDict.first_message_time ∧
      u.last_message_time = mixedHistDict.last_message_time ∧
      (∀ l, mixedHistDict.history? = some (.items l) →
        u.history = l.filterMap histParse) :=
  ⟨by decide, c9_from_dict_total_on_string_histories mixedHistDict "1" "n" rfl rfl (by decide)⟩

theorem nextPushSimple_future (s : String) (now t : PyDateTime)
    (h : nextPushSimple s now = some t) : now < t := by
  simp only [nextPushSimple] at h
  split at h
  · split at h
    · split at h
      · split at h
        · replace h := Option.some.inj h
          subst h
          split
          · exact PyDateTime.lt_of_day_lt (by show now.day < now.day + 1; omega)
          · next hle => exact lt_of_not_le hle
        · exact Option.noConfusion h
      · exact Option.noConfusion h
    · exact Option.noConfusion h
  · exact Option.noConfusion h

/-- C6: the computed next fire time is strictly in the future for every
fire-spec string and every "now" (granting that the external `croniter`,
when it parses the spec, returns a strictly-future instant); on the
simple path, `"09:00"` at 08:00 fires at 09:00 the same day and at 10:00
fires at 09:00 the following day. -/
theorem c6_next_push_time_strictly_future :
    (∀ (cronResult : Option PyDateTime) (push_time : String) (now : PyDateTime),
      (∀ t, cronResult = some t → now < t) →
      now < calcNextPushTime cronResult push_time now) ∧
    calcNextPushTime none "09:00" ⟨0, 8 * 3600 * 1000000⟩ = ⟨0, 9 * 3600 * 1000000⟩ ∧
    calcNextPushTime none "09:00" ⟨0, 10 * 3600 * 1000000⟩ = ⟨1, 9 * 3600 * 1000000⟩ := by
  refine ⟨?_, by decide, by decide⟩
  intro cronResult push_time now hcr
  cases cronResult with
  | some t => exact hcr t rfl
  | none =>
    show now < (match nextPushSimple push_time now with
      | some t => t
      | none => fallbackNineAm now)
    cases hn : nextPushSimple push_time now with
    | some t => exact nextPushSimple_future push_time now t hn
    | none => exact PyDateTime.lt_of_day_lt (by show now.day < now.day + 1; omega)

/-- Witness for C6 at the concrete spec `"09:00"` and a concrete clock
(the cron hypothesis is vacuous: `croniter` rejects `"09:00"`, modelled
as `cronResult = none`). -/
theorem c6_witness :
    (⟨0, 8 * 3600 * 1000000⟩ : PyDateTime) <
      calcNextPushTime none "09:00" ⟨0, 8 * 3600 * 1000000⟩ :=
  c6_next_push_time_strictly_future.1 none "09:00" ⟨0, 8 * 3600 * 1000000⟩
    (fun _ h => Option.noConfusion h)

/-- C10: `_calculate_next_push_time` is total — when the spec parses
neither as cron (`cronResult = none`) nor as a simple `HH:MM` time (the
simple path raises, modelled by `nextPushSimple` returning `none`), the
outer handler returns 09:00 of the following day instead of propagating
the exception. -/
theorem c10_unparseable_spec_falls_back (push_time : String) (now : PyDateTime)
    (h : nextPushSimple push_time now = none) :
    calcNextPushTime none push_time now = ⟨now.day + 1, 9 * 3600 * 1000000⟩ := by
  show (match nextPushSimple push_time now with
    | some t => t
    | none => fallbackNineAm now) = _
  rw [h]
  rfl

/-- Witness for C10 at the concrete uninterpretable spec `"abc"`. -/
theorem c10_witness :
    nextPushSimple "abc" (⟨0, 0⟩ : PyDateTime) = none ∧
    calcNextPushTime none "abc" ⟨0, 0⟩ = ⟨1, 9 * 3600 * 1000000⟩ :=
  ⟨by decide, c10_unparseable_spec_falls_back "abc" ⟨0, 0⟩ (by decide)⟩

/-- A placeholder user for concrete rank examples. -/
def exampleUser (s : String) : UserData := { user_id := s, nickname := s }

/-- C7: every displayed entry's percentage is its count divided by the
sum over the entire input list (not only the top-`N` slice) times 100; a
zero sum yields 0 for every entry instead of a division error; with
counts `[50, 30, 20]` and limit 2 the displayed percentages are
`50.0, 30.0` (computed against 100, the sum of all three); and with the
whole list displayed and a positive sum the percentages total 100. -/
theorem c7_percentages_over_full_sum :
    (∀ (pairs : List (UserData × Int)) (limit : Nat),
      textMessageRows pairs limit = (pairs.take limit).map (fun p =>
        (p.1, p.2, if 0 < (pairs.map (fun q => q.2)).sum
          then ((p.2 : ℚ) / (((pairs.map (fun q => q.2)).sum : Int) : ℚ)) * 100
          else 0))) ∧
    (∀ (pairs : List (UserData × Int)) (limit : Nat),
      (pairs.map (fun q => q.2)).sum = 0 →
      ∀ r ∈ textMessageRows pairs limit, r.2.2 = 0) ∧
    (∀ (pairs : List (UserData × Int)) (limit : Nat),
      pairs.length ≤ limit → 0 < (pairs.map (fun q => q.2)).sum →
      ((textMessageRows pairs limit).map (fun r => r.2.2)).sum = 100) ∧
    (textMessageRows
        [(exampleUser "a", 50), (exampleUser "b", 30), (exampleUser "c", 20)] 2).map
      (fun r => r.2.2) = [50, 30] := by
  refine ⟨fun pairs limit => rfl, ?_, ?_, ?_⟩
  · intro pairs limit hz r hr
    rw [textMessageRows] at hr
    simp only [List.mem_map] at hr
    obtain ⟨p, hp, rfl⟩ := hr
    simp only [hz]
    norm_num
  · intro pairs limit hlen hpos
    have hcast : (0 : ℚ) < (((pairs.map (fun q => q.2)).sum : Int) : ℚ) := by
      exact_mod_cast hpos
    rw [textMessageRows]
    simp only [List.take_of_length_le hlen]
    rw [List.map_map]
    have harm : ((fun r : UserData × Int × ℚ => r.2.2) ∘ (fun p : UserData × Int =>
        (p.1, p.2, if 0 < (pairs.map (fun q => q.2)).sum
          then ((p.2 : ℚ) / (((pairs.map (fun q => q.2)).sum : Int) : ℚ)) * 100
          else 0))) = (fun p : UserData × Int =>
        ((p.2 : ℚ)) * (100 / (((pairs.map (fun q => q.2)).sum : Int) : ℚ))) := by
      funext p
      simp only [Function.comp_apply, if_pos hpos]
      ring
    rw [harm, List.sum_map_mul_right]
    have hsum : ((pairs.map (fun p : UserData × Int => (p.2 : ℚ))).sum) =
        (((pairs.map (fun q => q.2)).sum : Int) : ℚ) := by
      rw [Int.cast_list_sum, List.map_map]
      rfl
    rw [hsum, ← mul_div_assoc, mul_comm, mul_div_assoc,
      div_self (ne_of_gt hcast), mul_one]
  · rw [textMessageRows]
    norm_num [exampleUser]

/-- Witness for C7 at the `[50, 30, 20]` example with the whole list
displayed: the percentages sum to 100. -/
theorem c7_witness :
    ([(exampleUser "a", 50), (exampleUser "b", 30), (exampleUser "c", 20)] :
        List (UserData × Int)).length ≤ 3 ∧
    (0 : Int) < (([(exampleUser "a", 50), (exampleUser "b", 30), (exampleUser "c", 20)] :
        List (UserData × Int)).map (fun q => q.2)).sum ∧
    ((textMessageRows
        [(exampleUser "a", 50), (exampleUser "b", 30), (exampleUser "c", 20)] 3).map
      (fun r => r.2.2)).sum = 100 :=
  ⟨by decide, by decide,
    c7_percentages_over_full_sum.2.2.1
      [(exampleUser "a", 50), (exampleUser "b", 30), (exampleUser "c", 20)] 3
      (by decide) (by decide)⟩
